import Mathlib

set_option maxRecDepth 8000

/- Shallow embedding of the batch-prediction server (Server.go) of the
   embedded-tf repository.  Pure transcoding functions are translated
   directly from the source; effectful steps (object store, subprocess,
   HTTP) are modelled by explicit oracle environments and effect traces. -/

namespace EmbeddedTF

/-- Digit count of a natural number (0 for 0); the fuel argument only
bounds the recursion and is always supplied large enough. -/
def natDigitsAux : Nat → Nat → Nat
  | 0, _ => 0
  | Nat.succ f, n => if n = 0 then 0 else natDigitsAux f (n / 10) + 1

def natDigits (n : Nat) : Nat := natDigitsAux (n + 1) n

/-- Bit length: position of the highest set bit plus one, 0 for 0. -/
def bitLenAux : Nat → Nat → Nat
  | 0, _ => 0
  | Nat.succ f, n => if n = 0 then 0 else bitLenAux f (n / 2) + 1

def bitLen (n : Nat) : Nat := bitLenAux (n + 1) n

/-- Exact value of a finite IEEE-754 binary64 number as a sign and
sig × 2 ^ exp.  The rounding algorithm below only produces the canonical
form: sig = 0 with exp = 0 for zero; otherwise exp ≥ -1074, sig < 2 ^ 53,
and sig ≥ 2 ^ 52 whenever exp > -1074; so two canonical forms are equal
exactly when they denote the same double. -/
structure F64 where
  sign : Bool
  sig : Nat
  exp : Int
deriving DecidableEq

/-- Correctly rounded conversion of the decimal (-1)^neg × d × 10 ^ ex to
binary64, as strconv.ParseFloat performs it: round to nearest with ties to
even, gradual underflow (and underflow to zero) silent, overflow reported
as a range error (none here), using the same coarse decimal-point cutoffs
310 and -330 that strconv applies before exact rounding.  The scale factor
2 ^ sK with sK = 4 × exNeg + 4 makes the floor of value × 2 ^ sK at least
16 (since 10 ^ exNeg ≤ 2 ^ (4 × exNeg)), so the bit length of that floor
determines floor (log2 value) exactly. -/
def roundDecToF64 (neg : Bool) (d : Nat) (ex : Int) : Option F64 :=
  if d = 0 then some ⟨neg, 0, 0⟩
  else
    let dp : Int := (natDigits d : Int) + ex
    if dp > 310 then none
    else if dp < -330 then some ⟨neg, 0, 0⟩
    else
      let exPos := ex.toNat
      let exNeg := (-ex).toNat
      let sK := 4 * exNeg + 4
      let scaled := d * 10 ^ exPos * 2 ^ sK / 10 ^ exNeg
      let t : Int := (bitLen scaled : Int) - 1 - (sK : Int)
      let e : Int := max (t - 52) (-1074)
      let num := d * 10 ^ exPos * 2 ^ (-(min e 0)).toNat
      let den := 10 ^ exNeg * 2 ^ e.toNat
      let q := num / den
      let r := num % den
      let m0 :=
        if den < 2 * r then q + 1
        else if 2 * r < den then q
        else if q % 2 = 0 then q else q + 1
      let me := if 2 ^ 53 ≤ m0 then (m0 / 2, e + 1) else (m0, e)
      if me.1 = 0 then some ⟨neg, 0, 0⟩
      else if 971 < me.2 then none
      else some ⟨neg, me.1, me.2⟩

/-- Total wrapper used to spell concrete doubles in statements: the double
nearest to d × 10 ^ ex. -/
def f64OfDec (d : Nat) (ex : Int) : F64 :=
  match roundDecToF64 false d ex with
  | some f => f
  | none => ⟨false, 0, 0⟩

/-- Numeric value of a list of decimal digit characters. -/
def digitsToNat (ds : List Char) : Nat :=
  ds.foldl (fun a c => a * 10 + (c.toNat - 48)) 0

/-- Decomposition of a validated JSON number token into sign, integer
digits and decimal exponent: the token denotes (-1)^neg × d × 10 ^ ex. -/
def numParts (cs : List Char) : Bool × Nat × Int :=
  let p0 : Bool × List Char := match cs with
    | '-' :: r => (true, r)
    | r => (false, r)
  let ip := p0.2.takeWhile Char.isDigit
  let rest1 := p0.2.dropWhile Char.isDigit
  let fp := match rest1 with
    | '.' :: r => r.takeWhile Char.isDigit
    | _ => []
  let rest2 := match rest1 with
    | '.' :: r => r.dropWhile Char.isDigit
    | r => r
  let ep : Bool × List Char := match rest2 with
    | 'e' :: '-' :: r => (true, r)
    | 'E' :: '-' :: r => (true, r)
    | 'e' :: '+' :: r => (false, r)
    | 'E' :: '+' :: r => (false, r)
    | 'e' :: r => (false, r)
    | 'E' :: r => (false, r)
    | _ => (false, [])
  let eMag : Int := Int.ofNat (digitsToNat (ep.2.takeWhile Char.isDigit))
  let e0 : Int := if ep.1 then -eMag else eMag
  (p0.1, digitsToNat (ip ++ fp), e0 - Int.ofNat fp.length)

/-- Conversion of a scanned number literal to float64, as the convertNumber
step of encoding/json does when a decoded number is materialized as an
interface value or a float64 destination; none models the
strconv.ParseFloat range error that makes json.Unmarshal fail. -/
def tokenToF64 (t : String) : Option F64 :=
  let p := numParts t.data
  roundDecToF64 p.1 p.2.1 p.2.2

/-- Exact decimal of a positive double sig × 2 ^ exp, as digits × 10 ^ e10
(every dyadic rational has a finite decimal expansion). -/
def exactDec (sig : Nat) (exp : Int) : Nat × Int :=
  if 0 ≤ exp then (sig * 2 ^ exp.toNat, 0)
  else (sig * 5 ^ (-exp).toNat, exp)

/-- Round-trip test: does the decimal d × 10 ^ ex parse back to exactly the
target double? -/
def checkRT (target : F64) (d : Nat) (ex : Int) : Bool :=
  match roundDecToF64 target.sign d ex with
  | some f => decide (f = target)
  | none => false

/-- Strip trailing zero digits into the exponent (fuelled loop). -/
def stripZeroDigits : Nat → Nat × Int → Nat × Int
  | 0, de => de
  | Nat.succ f, (d, e) =>
    if d % 10 = 0 ∧ d ≠ 0 then stripZeroDigits f (d / 10, e + 1) else (d, e)

/-- Shortest correctly-rounding digits of a double whose exact decimal is
n × 10 ^ e10: the fewest significant digits whose decimal parses back to
exactly the target, preferring the nearer candidate with ties to even —
the digits strconv.AppendFloat emits for precision -1.  For each digit
count the only candidates are the two decimals adjacent to the value, so
checking both is exhaustive; the exact decimal itself always round-trips,
so the search terminates with a correct result. -/
def shortestSearch (target : F64) (n : Nat) (e10 : Int) : Nat → Nat → Nat × Int
  | 0, _ => (n, e10)
  | Nat.succ fuel, k =>
    let nd := natDigits n
    if nd ≤ k then (n, e10)
    else
      let s := nd - k
      let den := 10 ^ s
      let q := n / den
      let r := n % den
      let exq : Int := e10 + (s : Int)
      let lowOk := checkRT target q exq
      let highOk := checkRT target (q + 1) exq
      if lowOk && highOk then
        if 2 * r < den then (q, exq)
        else if den < 2 * r then (q + 1, exq)
        else if q % 2 = 0 then (q, exq) else (q + 1, exq)
      else if lowOk then (q, exq)
      else if highOk then (q + 1, exq)
      else shortestSearch target n e10 fuel (k + 1)

/-- Decimal digit characters of a natural number, most significant first. -/
def natToCharsAux : Nat → Nat → List Char → List Char
  | 0, _, acc => acc
  | Nat.succ f, n, acc =>
    if n = 0 then acc
    else natToCharsAux f (n / 10) (Char.ofNat (48 + n % 10) :: acc)

def natToChars (n : Nat) : List Char :=
  if n = 0 then ['0'] else natToCharsAux (n + 1) n []

/-- Fixed-notation rendering of shortest digits with the decimal point at
pointPos, as strconv format f with precision -1 prints them. -/
def fmtFixed (neg : Bool) (dig : List Char) (pointPos : Int) : String :=
  let body :=
    if pointPos ≤ 0 then
      '0' :: '.' :: (List.replicate (-pointPos).toNat '0' ++ dig)
    else if (dig.length : Int) ≤ pointPos then
      dig ++ List.replicate (pointPos.toNat - dig.length) '0'
    else
      dig.take pointPos.toNat ++ '.' :: dig.drop pointPos.toNat
  String.mk (if neg then '-' :: body else body)

/-- Exponent-notation rendering, as strconv format e with precision -1
prints it (exponent sign always present, at least two exponent digits),
followed by the encoding/json floatEncoder cleanup that rewrites a
trailing e-0X exponent to e-X. -/
def fmtExpon (neg : Bool) (dig : List Char) (pointPos : Int) : String :=
  let e : Int := pointPos - 1
  let mant := match dig with
    | [] => ['0']
    | d :: [] => [d]
    | d :: rest => d :: '.' :: rest
  let eAbs := (if e < 0 then -e else e).toNat
  let eDigits0 := natToChars eAbs
  let eDigits1 := if eDigits0.length < 2 then '0' :: eDigits0 else eDigits0
  let eDigits := if e < 0 ∧ eDigits1.length = 2 ∧ eDigits1.head? = some '0'
    then eDigits1.tail else eDigits1
  String.mk ((if neg then '-' :: mant else mant) ++ 'e' :: (if e < 0 then '-' else '+') :: eDigits)

/-- Magnitude comparison of two finite doubles by exact arithmetic. -/
def f64MagLt (a b : F64) : Bool :=
  decide (a.sig * 2 ^ (a.exp - min a.exp b.exp).toNat <
    b.sig * 2 ^ (b.exp - min a.exp b.exp).toNat)

/-- Format thresholds 1e-6 and 1e21 of the encoding/json floatEncoder, as
the doubles the Go constants actually denote. -/
def lowThreshold : F64 := f64OfDec 1 (-6)

def highThreshold : F64 := f64OfDec 1 21

/-- Serialization of a decoded float64 exactly as encoding/json writes it:
shortest round-trip digits (strconv.AppendFloat precision -1), fixed
notation for magnitudes in [1e-6, 1e21), exponent notation otherwise, with
the e-0X exponent cleanup; negative zero prints as -0. -/
def goFloatEncode (f : F64) : String :=
  if f.sig = 0 then (if f.sign then "-0" else "0")
  else
    let nde := exactDec f.sig f.exp
    let de := stripZeroDigits (natDigits nde.1)
      (shortestSearch f nde.1 nde.2 (natDigits nde.1 + 1) 1)
    let dig := natToChars de.1
    let pointPos : Int := (natDigits de.1 : Int) + de.2
    if f64MagLt f lowThreshold || !f64MagLt f highThreshold then
      fmtExpon f.sign dig pointPos
    else
      fmtFixed f.sign dig pointPos

/-- JSON values of encoding/json.  The scanner keeps a number as its
validated literal token (num); materializing a decoded value as a Go
interface value or float64 field converts it to a double (dbl), which is
where a range error can arise — numbers inside ignored object members are
never converted, as in the source package.  Objects keep the document
order of their keys; the map semantics of a decoded interface value
(duplicate keys last wins, sorted marshalling) is applied by goValueE
below. -/
inductive Json where
  | null : Json
  | bool (b : Bool) : Json
  | num (t : String) : Json
  | dbl (f : F64) : Json
  | str (s : String) : Json
  | arr (xs : List Json) : Json
  | obj (kvs : List (String × Json)) : Json

/-- Drop one trailing carriage return, as the dropCR helper of
bufio.ScanLines does. -/
def dropCR (cs : List Char) : List Char :=
  match cs.getLast? with
  | some c => if c = '\r' then cs.dropLast else cs
  | none => cs

/-- Token loop of bufio.Scanner with the ScanLines split function: each
newline terminates a token (with one trailing CR removed); at end of input
a non-empty remainder yields one final token, an empty remainder none. -/
def scanAux (acc : List Char) : List Char → List (List Char)
  | [] => if acc.isEmpty then [] else [dropCR acc.reverse]
  | c :: cs => if c = '\n' then dropCR acc.reverse :: scanAux [] cs else scanAux (c :: acc) cs

/-- Lines delivered by an unbounded scanner over a whole input file: the
token semantics of ScanLines without the buffer limit, used to state
properties about line structure. -/
def scanLines (s : String) : List String :=
  (scanAux [] s.data).map (fun cs => String.mk cs)

/-- Token size bound of a default bufio.Scanner (MaxScanTokenSize, which is
also the maximal buffer size NewScanner will grow to). -/
def maxTok : Nat := 65536

/-- Token loop of the default bufio.Scanner with its buffer bound: a run of
maxTok characters without a newline overflows the buffer before the split
function can find a token, so Scan stops and Err reports ErrTooLong; the
flag records that failure, after which no further tokens are delivered.
The counter n carries the length of the current run (acc). -/
def scanAuxB (acc : List Char) (n : Nat) : List Char → List (List Char) × Bool
  | [] =>
    if maxTok ≤ n then ([], true)
    else if acc.isEmpty then ([], false)
    else ([dropCR acc.reverse], false)
  | c :: cs =>
    if maxTok ≤ n then ([], true)
    else if c = '\n' then
      let r := scanAuxB [] 0 cs
      (dropCR acc.reverse :: r.1, r.2)
    else scanAuxB (c :: acc) (n + 1) cs

/-- Lines delivered by the bounded scanner of formatInput (source line
413), together with whether the scan ended in the ErrTooLong failure that
the scanner.Err() check at source lines 422 to 424 surfaces. -/
def scanLinesB (s : String) : List String × Bool :=
  let r := scanAuxB [] 0 s.data
  (r.1.map (fun cs => String.mk cs), r.2)

/-- Whitespace accepted between JSON tokens by encoding/json. -/
def isWs (c : Char) : Bool := c = ' ' || c = '\t' || c = '\n' || c = '\r'

def skipWs (cs : List Char) : List Char := cs.dropWhile isWs

def hexVal (c : Char) : Option Nat :=
  if '0' ≤ c ∧ c ≤ '9' then some (c.toNat - '0'.toNat)
  else if 'a' ≤ c ∧ c ≤ 'f' then some (c.toNat - 'a'.toNat + 10)
  else if 'A' ≤ c ∧ c ≤ 'F' then some (c.toNat - 'A'.toNat + 10)
  else none

/-- String literal body parser of encoding/json: consume characters up to
the closing quote, decoding the escape sequences the package accepts and
rejecting raw control characters. -/
def parseStringAux : List Char → List Char → Except String (String × List Char)
  | [], _ => .error "unexpected end of JSON input"
  | '"' :: rest, acc => .ok (String.mk acc.reverse, rest)
  | '\\' :: 'u' :: h1 :: h2 :: h3 :: h4 :: rest, acc =>
    match hexVal h1, hexVal h2, hexVal h3, hexVal h4 with
    | some a, some b, some c, some d =>
      parseStringAux rest (Char.ofNat (((a * 16 + b) * 16 + c) * 16 + d) :: acc)
    | _, _, _, _ => .error "invalid character in string escape"
  | '\\' :: e :: rest, acc =>
    if e = '"' then parseStringAux rest ('"' :: acc)
    else if e = '\\' then parseStringAux rest ('\\' :: acc)
    else if e = '/' then parseStringAux rest ('/' :: acc)
    else if e = 'b' then parseStringAux rest ('\x08' :: acc)
    else if e = 'f' then parseStringAux rest ('\x0c' :: acc)
    else if e = 'n' then parseStringAux rest ('\n' :: acc)
    else if e = 'r' then parseStringAux rest ('\r' :: acc)
    else if e = 't' then parseStringAux rest ('\t' :: acc)
    else .error "invalid character in string escape"
  | '\\' :: [], _ => .error "unexpected end of JSON input"
  | c :: rest, acc =>
    if c.toNat < 0x20 then .error "invalid character in string literal"
    else parseStringAux rest (c :: acc)

/-- Characters that may occur in a JSON number token. -/
def isNumChar (c : Char) : Bool :=
  c.isDigit || c = '-' || c = '+' || c = '.' || c = 'e' || c = 'E'

/-- Exponent part of the JSON number grammar, or empty remainder. -/
def expOnly : List Char → Bool
  | [] => true
  | c :: rest =>
    (c = 'e' || c = 'E') &&
      (let rest2 := match rest with
        | '+' :: r => r
        | '-' :: r => r
        | r => r
       decide (rest2 ≠ []) && rest2.all Char.isDigit)

/-- Fraction then exponent part of the JSON number grammar. -/
def fracExpOk : List Char → Bool
  | '.' :: rest =>
    decide (rest.takeWhile Char.isDigit ≠ []) && expOnly (rest.dropWhile Char.isDigit)
  | cs => expOnly cs

/-- Integer part of the JSON number grammar; returns the remainder. -/
def intPartRest : List Char → Option (List Char)
  | '0' :: rest => some rest
  | c :: rest => if c.isDigit then some (rest.dropWhile Char.isDigit) else none
  | [] => none

/-- Validation of a whole JSON number token. -/
def isValidNumToken (cs : List Char) : Bool :=
  let cs2 := match cs with
    | '-' :: r => r
    | r => r
  match intPartRest cs2 with
  | none => false
  | some rest => fracExpOk rest

mutual
/-- Recursive descent JSON value parser mirroring encoding/json.  The fuel
argument only bounds recursion depth; the top-level entry point supplies
more fuel than any input of its length can consume. -/
def parseValue : Nat → List Char → Except String (Json × List Char)
  | 0, _ => .error "exceeded max depth"
  | Nat.succ f, cs =>
    match skipWs cs with
    | [] => .error "unexpected end of JSON input"
    | c :: rest =>
      if c = 'n' then
        match rest with
        | 'u' :: 'l' :: 'l' :: r => .ok (Json.null, r)
        | _ => .error "invalid character in literal null"
      else if c = 't' then
        match rest with
        | 'r' :: 'u' :: 'e' :: r => .ok (Json.bool true, r)
        | _ => .error "invalid character in literal true"
      else if c = 'f' then
        match rest with
        | 'a' :: 'l' :: 's' :: 'e' :: r => .ok (Json.bool false, r)
        | _ => .error "invalid character in literal false"
      else if c = '"' then
        match parseStringAux rest [] with
        | .error e => .error e
        | .ok (s, r) => .ok (Json.str s, r)
      else if c = '[' then
        match skipWs rest with
        | ']' :: r => .ok (Json.arr [], r)
        | r => parseArrayItems f r []
      else if c = '\x7b' then
        match skipWs rest with
        | '\x7d' :: r => .ok (Json.obj [], r)
        | r => parseObjectItems f r []
      else if c = '-' || c.isDigit then
        let tok := (c :: rest).takeWhile isNumChar
        if isValidNumToken tok then .ok (Json.num (String.mk tok), (c :: rest).drop tok.length)
        else .error "invalid number literal"
      else .error "invalid character looking for beginning of value"

/-- Element loop of the array production. -/
def parseArrayItems : Nat → List Char → List Json → Except String (Json × List Char)
  | 0, _, _ => .error "exceeded max depth"
  | Nat.succ f, cs, acc =>
    match parseValue f cs with
    | .error e => .error e
    | .ok (v, r) =>
      match skipWs r with
      | ',' :: r2 => parseArrayItems f r2 (acc ++ [v])
      | ']' :: r2 => .ok (Json.arr (acc ++ [v]), r2)
      | _ => .error "invalid character after array element"

/-- Member loop of the object production. -/
def parseObjectItems : Nat → List Char → List (String × Json) → Except String (Json × List Char)
  | 0, _, _ => .error "exceeded max depth"
  | Nat.succ f, cs, acc =>
    match skipWs cs with
    | '"' :: r =>
      match parseStringAux r [] with
      | .error e => .error e
      | .ok (k, r2) =>
        match skipWs r2 with
        | ':' :: r3 =>
          match parseValue f r3 with
          | .error e => .error e
          | .ok (v, r4) =>
            match skipWs r4 with
            | ',' :: r5 => parseObjectItems f r5 (acc ++ [(k, v)])
            | '\x7d' :: r5 => .ok (Json.obj (acc ++ [(k, v)]), r5)
            | _ => .error "invalid character after object value"
        | _ => .error "invalid character after object key"
    | _ => .error "invalid character looking for object key"
end

/-- Whole-input JSON decoding as json.Unmarshal does it: exactly one value,
then only trailing whitespace. -/
def parseJsonTop (s : String) : Except String Json :=
  match parseValue (2 * s.length + 8) s.data with
  | .error e => .error e
  | .ok (v, rest) =>
    match skipWs rest with
    | [] => .ok v
    | _ => .error "invalid character after top-level value"

/-- Insert into the sorted association list that models a Go map value with
string keys: replace on an equal key, otherwise keep the keys sorted. -/
def insertSorted (k : String) (v : Json) : List (String × Json) → List (String × Json)
  | [] => [(k, v)]
  | (k2, v2) :: rest =>
    if k = k2 then (k, v) :: rest
    else if k < k2 then (k, v) :: (k2, v2) :: rest
    else (k2, v2) :: insertSorted k v rest

mutual
/-- Materialization of a parsed document as the Go interface value that
json.Unmarshal produces: numbers are converted to float64 (failing with
the first range error, in document order, as the saved convertNumber error
does), and each object becomes a map, so duplicate keys collapse (last
wins) and json.Marshal later emits keys in sorted order. -/
def goValueE : Json → Except String Json
  | .num t =>
    match tokenToF64 t with
    | none => .error ("json: cannot unmarshal number " ++ t ++ " into float64")
    | some f => .ok (.dbl f)
  | .obj kvs =>
    match goValuePairsE kvs [] with
    | .error e => .error e
    | .ok ps => .ok (.obj ps)
  | .arr xs =>
    match goValueListE xs with
    | .error e => .error e
    | .ok vs => .ok (.arr vs)
  | v => .ok v

/-- Pointwise materialization of array elements. -/
def goValueListE : List Json → Except String (List Json)
  | [] => .ok []
  | x :: xs =>
    match goValueE x with
    | .error e => .error e
    | .ok v =>
      match goValueListE xs with
      | .error e => .error e
      | .ok vs => .ok (v :: vs)

/-- Materialization of object members into the sorted map model. -/
def goValuePairsE : List (String × Json) → List (String × Json) → Except String (List (String × Json))
  | [], acc => .ok acc
  | (k, v) :: rest, acc =>
    match goValueE v with
    | .error e => .error e
    | .ok v2 => goValuePairsE rest (insertSorted k v2 acc)
end

/-- Hexadecimal digit characters used by the marshaller. -/
def hexDigitChar (n : Nat) : Char :=
  if n < 10 then Char.ofNat ('0'.toNat + n) else Char.ofNat ('a'.toNat + n - 10)

/-- Escaping performed by json.Marshal on each character of a string, with
the default HTML escaping of the package-level Marshal. -/
def marshalChar (c : Char) : List Char :=
  if c = '"' then ['\\', '"']
  else if c = '\\' then ['\\', '\\']
  else if c = '\n' then ['\\', 'n']
  else if c = '\r' then ['\\', 'r']
  else if c = '\t' then ['\\', 't']
  else if c = '<' || c = '>' || c = '&' || c.toNat < 0x20 then
    ['\\', 'u', '0', '0', hexDigitChar (c.toNat / 16), hexDigitChar (c.toNat % 16)]
  else if c.toNat = 0x2028 || c.toNat = 0x2029 then
    ['\\', 'u', '2', '0', '2', hexDigitChar (c.toNat % 16)]
  else [c]

/-- String serialization of json.Marshal. -/
def marshalString (s : String) : String :=
  String.mk ('"' :: (s.data.flatMap marshalChar ++ ['"']))

mutual
/-- Compact serialization of json.Marshal for decoded interface values.
Decoded values only contain dbl numbers, serialized canonically by
goFloatEncode; the num case (an unconverted scanner token, which Marshal
never sees) is kept only to make the function total. -/
def goMarshal : Json → String
  | .null => "null"
  | .bool true => "true"
  | .bool false => "false"
  | .num t => t
  | .dbl f => goFloatEncode f
  | .str s => marshalString s
  | .arr xs => "[" ++ goMarshalList xs ++ "]"
  | .obj kvs => "\x7b" ++ goMarshalPairs kvs ++ "\x7d"

/-- Comma-joined serialization of array elements. -/
def goMarshalList : List Json → String
  | [] => ""
  | [x] => goMarshal x
  | x :: y :: xs => goMarshal x ++ "," ++ goMarshalList (y :: xs)

/-- Comma-joined serialization of object members. -/
def goMarshalPairs : List (String × Json) → String
  | [] => ""
  | [(k, v)] => marshalString k ++ ":" ++ goMarshal v
  | (k, v) :: p :: rest => marshalString k ++ ":" ++ goMarshal v ++ "," ++ goMarshalPairs (p :: rest)
end

/-- Decoded form of the tfAnswer struct (source lines 24 to 27). -/
structure TfAnswer where
  prediction : List Json
  error : String

/-- ASCII lower-casing of one character. -/
def lowerChar (c : Char) : Char :=
  if 'A' ≤ c ∧ c ≤ 'Z' then Char.ofNat (c.toNat + 32) else c

/-- ASCII lower-casing, modelling the case folding json.Unmarshal applies
when matching object keys against the plain ASCII field tags. -/
def lowerAscii (s : String) : String := String.mk (s.data.map lowerChar)

/-- Field assignment pass of json.Unmarshal decoding an object into the
tfAnswer struct: keys are matched case-insensitively against the json tags,
later duplicates overwrite, unknown keys are ignored, and the first type
mismatch is recorded as the error that Unmarshal finally returns. -/
def decodeTfField (acc : TfAnswer × Option String) (kv : String × Json) : TfAnswer × Option String :=
  if lowerAscii kv.1 = "predictions" then
    match kv.2 with
    | .arr xs =>
      match goValueListE xs with
      | .ok vs => ({ acc.1 with prediction := vs }, acc.2)
      | .error e => (acc.1, acc.2 <|> some e)
    | .null => ({ acc.1 with prediction := [] }, acc.2)
    | _ => (acc.1, acc.2 <|> some "json: cannot unmarshal value into field predictions")
  else if lowerAscii kv.1 = "error" then
    match kv.2 with
    | .str s => ({ acc.1 with error := s }, acc.2)
    | .null => acc
    | _ => (acc.1, acc.2 <|> some "json: cannot unmarshal value into field error")
  else acc

/-- Decoding of the inference-server response body into the tfAnswer
struct, as json.Unmarshal(output, answer) does. -/
def unmarshalTfAnswer (s : String) : Except String TfAnswer :=
  match parseJsonTop s with
  | .error e => .error e
  | .ok Json.null => .ok ⟨[], ""⟩
  | .ok (Json.obj kvs) =>
    match kvs.foldl decodeTfField (⟨[], ""⟩, none) with
    | (a, none) => .ok a
    | (_, some e) => .error e
  | .ok _ => .error "json: cannot unmarshal value into Go value of type main.tfAnswer"

/-- Defensive byte rewrite applied by formatOutput before parsing (source
line 383): bytes.ReplaceAll of one backslash byte by two.  The pattern is a
single ASCII byte, so the byte-level rewrite coincides with this
character-level one. -/
def escapeBackslash (s : String) : String :=
  String.mk (s.data.foldr (fun c acc => if c = '\\' then '\\' :: '\\' :: acc else c :: acc) [])

/-- Output accumulation loop of formatOutput (source lines 398 to 405): one
marshalled prediction per line.  For values obtained from Unmarshal,
json.Marshal cannot fail, so the loop is total. -/
def outLoop : List Json → String
  | [] => ""
  | p :: ps => goMarshal p ++ "\n" ++ outLoop ps

/-- Post-escape part of formatOutput (source lines 386 to 406): unmarshal
the body, fail on a non-empty error field, otherwise emit one line per
prediction. -/
def decodeAnswerBody (output : String) : Except String String :=
  match unmarshalTfAnswer output with
  | .error e => .error e
  | .ok a => if a.error ≠ "" then .error a.error else .ok (outLoop a.prediction)

/-- Model of formatOutput (source lines 376 to 407). -/
def formatOutput (body : String) : Except String String :=
  let output := escapeBackslash body
  match unmarshalTfAnswer output with
  | .error e => .error e
  | .ok a => if a.error ≠ "" then .error a.error else .ok (outLoop a.prediction)

/-- Decoding of one scanned input line into a Go interface value, as
json.Unmarshal(scanner.Bytes(), o) does inside formatInput: parse, then
materialize the whole value (converting every number). -/
def decodeLine (l : String) : Except String Json :=
  match parseJsonTop l with
  | .error e => .error e
  | .ok v => goValueE v

/-- Scan-and-append loop of formatInput (source lines 414 to 421). -/
def formatInputLoop : List String → List Json → Except String (List Json)
  | [], acc => .ok acc
  | l :: rest, acc =>
    match decodeLine l with
    | .error e => .error e
    | .ok v => formatInputLoop rest (acc ++ [v])

/-- Serialization of the inputPrediction struct (source lines 28 to 30 and
425): a single instances field holding the collected values. -/
def marshalInstances (vs : List Json) : String :=
  "\x7b\"instances\":" ++ goMarshal (Json.arr vs) ++ "\x7d"

/-- Model of formatInput (source lines 411 to 430): decode the lines the
scanner delivers, aborting on the first undecodable line; after the scan
loop, surface the scanner failure (the bounded-buffer ErrTooLong) through
the scanner.Err() check of source lines 422 to 424; only then marshal the
envelope. -/
def formatInput (content : String) : Except String String :=
  let r := scanLinesB content
  match formatInputLoop r.1 [] with
  | .error e => .error e
  | .ok vs =>
    if r.2 then .error "bufio.Scanner: token too long"
    else .ok (marshalInstances vs)

/-- Record of processing one input file inside makePredictions (source
lines 338 to 368): the payload actually posted to the inference endpoint,
if the post was reached, and the overall result. -/
structure FileRun where
  posted : Option String
  result : Except String String

/-- Per-file branch of makePredictions, with the HTTP post modelled as an
oracle from request payload to response body or transport error. -/
def processFile (post : String → Except String String) (content : String) : FileRun :=
  match formatInput content with
  | .error e => ⟨none, .error e⟩
  | .ok finput =>
    match post finput with
    | .error e => ⟨some finput, .error e⟩
    | .ok respBody =>
      match formatOutput respBody with
      | .error e => ⟨some finput, .error e⟩
      | .ok fo => ⟨some finput, .ok fo⟩

/-- Outcome of a Go computation that can return a value, return an error,
or panic at runtime (such as an out-of-range slice index). -/
inductive GoResult (α : Type) where
  | crash : GoResult α
  | err (msg : String) : GoResult α
  | ok (a : α) : GoResult α

/-- Store address marker of a GCS bucket definition (BUCKET_PREFIX,
source line 46). -/
def bucketMarker : String := "gs://"

/-- Character-level model of strings.HasPrefix.  All separators and markers
involved are ASCII, so Go byte semantics and character semantics agree. -/
def goHasPrefix (s pre : String) : Bool := pre.data.isPrefixOf s.data

/-- Character-level model of strings.HasSuffix. -/
def goHasSuffix (s suf : String) : Bool := suf.data.isSuffixOf s.data

/-- Split a character list around the first slash, when one occurs. -/
def splitFirstSlash : List Char → Option (List Char × List Char)
  | [] => none
  | c :: cs =>
    if c = '/' then some ([], cs)
    else
      match splitFirstSlash cs with
      | none => none
      | some (a, b) => some (c :: a, b)

/-- Semantics of strings.SplitN(s, slash, 2): split around the first slash
only.  The result always has one or two elements. -/
def goSplitN2 (s : String) : List String :=
  match splitFirstSlash s.data with
  | none => [s]
  | some (a, b) => [String.mk a, String.mk b]

/-- Model of extractLocation (source lines 433 to 440).  The source indexes
s[1] without checking the length of the SplitN result, so an address with
the store marker but no separator afterwards panics with an index out of
range instead of returning an error. -/
def extractLocation (location : String) : GoResult (String × String) :=
  if !goHasPrefix location bucketMarker then
    .err ("location must start with '" ++ bucketMarker ++ "'")
  else
    match goSplitN2 (String.mk (location.data.drop bucketMarker.length)) with
    | a :: b :: _ => .ok (a, b)
    | _ => .crash

/-- Model of getParam (source lines 80 to 91).  The raw query parameter is
given as an Option: none for an absent key, some v for a present first
value. -/
def getParam (param : Option String) (paramName : String) : GoResult (String × String) :=
  match param with
  | none => .err ("Query Param '" ++ paramName ++ "' is missing")
  | some v =>
    if v.length < 1 then .err ("Query Param '" ++ paramName ++ "' is missing")
    else
      match extractLocation v with
      | .crash => .crash
      | .err e => .err ("'" ++ paramName ++ "' bad formatted: " ++ e)
      | .ok bp => .ok bp

/-- Possible outcomes of launching and awaiting the inference server, seen
from startAndWaitTF (source lines 216 to 252): the launch itself can fail
(cmd.Start returns an error and cmd.Process stays nil), the stderr capture
can fail, the readiness marker can fail to appear before TF_TIMEOUT, or the
server becomes ready. -/
inductive TFStart where
  | startFailed (e : String) : TFStart
  | stderrFailed (e : String) : TFStart
  | timeout : TFStart
  | ready : TFStart

/-- Model of startAndWaitTF: the returned error, paired with whether the
child process was actually launched (cmd.Process is a valid handle). -/
def startAndWaitTF : TFStart → Option String × Bool
  | .startFailed e => (some e, false)
  | .stderrFailed e => (some e, true)
  | .timeout => (some "timeout exceeded", true)
  | .ready => (none, true)

/-- Oracle environment for one request: the raw query parameters and the
outcome of each effectful step of LoadAndPredict.  killResult is what the
deferred cmd.Process.Kill() would return; the source discards it. -/
structure ReqEnv where
  model : Option String
  input : Option String
  output : Option String
  clientErr : Option String
  dlModelErr : Option String
  tf : TFStart
  dlInputErr : Option String
  predErr : Option String
  uploadErr : Option String
  killResult : Option String

/-- Observable outcome of one request: either the handler panicked, or it
responded with a status and body; the flags record whether the child
process was launched, whether the deferred kill ran at exit, and whether it
ran against a valid (non-nil) process handle. -/
inductive ReqOutcome where
  | crashed : ReqOutcome
  | responded (status : Nat) (body : String) (launched killCalled killValid : Bool) : ReqOutcome
deriving DecidableEq

/-- Model of LoadAndPredict (source lines 94 to 211).  Each fmt.Fprintln
appends a newline to the written message.  The two input-download branches
(directory or single file, source lines 173 to 183) feed one err variable
checked by a single test, modelled by the one dlInputErr oracle.  The
uploadFile step (source line 205) assigns err but the source never checks
it before writing the success response. -/
def loadAndPredict (env : ReqEnv) : ReqOutcome :=
  match getParam env.model "model" with
  | .crash => .crashed
  | .err e => .responded 400 (e ++ "\n") false false false
  | .ok (_bm, pm) =>
    let _pathModel := if goHasSuffix pm "/" then pm else pm ++ "/"
    match getParam env.input "input" with
    | .crash => .crashed
    | .err e => .responded 400 (e ++ "\n") false false false
    | .ok _ =>
      match getParam env.output "output" with
      | .crash => .crashed
      | .err e => .responded 400 (e ++ "\n") false false false
      | .ok _ =>
        match env.clientErr with
        | some _ => .responded 500 "error when creating storage client\n" false false false
        | none =>
          match env.dlModelErr with
          | some _ => .responded 500 "error when downloading model files\n" false false false
          | none =>
            match startAndWaitTF env.tf with
            | (some _, launched) => .responded 500 "error when starting tensorflow\n" launched true launched
            | (none, _) =>
              match env.dlInputErr with
              | some _ => .responded 500 "error when downloading input files\n" true true true
              | none =>
                match env.predErr with
                | some _ => .responded 500 "error during predictions\n" true true true
                | none =>
                  .responded 200 "predictions completed\n" true true true

/-- Local and remote effects performed by the download functions. -/
inductive FsOp where
  | mkdirAll (p : String) : FsOp
  | listCall (pre : String) : FsOp
  | readObject (key : String) : FsOp
  | createLocal (p : String) : FsOp
  | writeLocal (p : String) : FsOp
deriving DecidableEq

/-- Object store content: object names with their data, in listing order. -/
structure Bucket where
  objects : List (String × String)

/-- Names returned by bucket.Objects with a Prefix query. -/
def listNames (b : Bucket) (pre : String) : List String :=
  (b.objects.map Prod.fst).filter (fun n => goHasPrefix n pre)

/-- Content lookup for a single object read. -/
def objectContent (b : Bucket) (key : String) : Option String :=
  (b.objects.find? (fun o => o.1 = key)).map Prod.snd

/-- Model of downloadFile (source lines 487 to 510): result paired with the
trace of store and filesystem effects, in order. -/
def downloadFile (b : Bucket) (path dest : String) : Except String Unit × List FsOp :=
  if goHasSuffix path "/" then (.error "downloadFiles: path must be GCS file", [])
  else
    match objectContent b path with
    | none => (.error "storage: object does not exist", [.readObject path])
    | some _ => (.ok (), [.readObject path, .createLocal dest, .writeLocal dest])

mutual
/-- Model of downloadFiles (source lines 445 to 484): validate the
directory shape of the remote path, create the local directory, list the
objects under the path, then download each entry, recursing on
directory-shaped names.  The fuel only bounds the recursion depth. -/
def downloadFiles : Nat → Bucket → String → String → Except String Unit × List FsOp
  | fuel, b, path, localDest =>
    if !goHasSuffix path "/" then (.error "downloadFiles: path must be GCS directory", [])
    else
      match fuel with
      | 0 => (.error "recursion limit", [])
      | Nat.succ f =>
        let r := dlLoop f b path localDest (listNames b path)
        (r.1, FsOp.mkdirAll localDest :: FsOp.listCall path :: r.2)

/-- Iteration of downloadFiles over the listed object names. -/
def dlLoop : Nat → Bucket → String → String → List String → Except String Unit × List FsOp
  | _, _, _, _, [] => (.ok (), [])
  | fuel, b, path, localDest, name :: rest =>
    let n := String.mk (name.data.drop path.length)
    if n = "" then dlLoop fuel b path localDest rest
    else if goHasSuffix n "/" then
      let r := downloadFiles fuel b name (localDest ++ n)
      match r.1 with
      | .error e => (.error e, r.2)
      | .ok _ =>
        let r2 := dlLoop fuel b path localDest rest
        (r2.1, r.2 ++ r2.2)
    else
      let r := downloadFile b name (localDest ++ n)
      match r.1 with
      | .error e => (.error e, r.2)
      | .ok _ =>
        let r2 := dlLoop fuel b path localDest rest
        (r2.1, r.2 ++ r2.2)
end

/-- Sequential decoding of a list of scanned lines: the specification-side
view of the formatInput loop, used to state its correctness. -/
def decodeLines : List String → Except String (List Json)
  | [] => .ok []
  | l :: rest =>
    match decodeLine l with
    | .error e => .error e
    | .ok v =>
      match decodeLines rest with
      | .error e => .error e
      | .ok vs => .ok (v :: vs)

/-! Helper lemmas. -/

theorem outLoop_foldr (ps : List Json) :
    outLoop ps = (ps.map fun p => goMarshal p ++ "\n").foldr (· ++ ·) "" := by
  induction ps with
  | nil => rfl
  | cons p ps ih => simp only [outLoop, List.map_cons, List.foldr_cons, ih]

theorem escapeBackslash_data (l : List Char) :
    l.foldr (fun c acc => if c = '\\' then '\\' :: '\\' :: acc else c :: acc) [] =
      l.flatMap (fun c => if c = '\\' then ['\\', '\\'] else [c]) := by
  induction l with
  | nil => rfl
  | cons c cs ih => by_cases hc : c = '\\' <;> simp [hc, ih]

theorem formatInputLoop_ok {ls : List String} {vs : List Json}
    (h : decodeLines ls = .ok vs) :
    ∀ acc, formatInputLoop ls acc = .ok (acc ++ vs) := by
  induction ls generalizing vs with
  | nil =>
    intro acc
    simp only [decodeLines] at h
    cases h
    simp [formatInputLoop]
  | cons l rest ih =>
    intro acc
    simp only [decodeLines] at h
    cases hd : decodeLine l with
    | error e => rw [hd] at h; simp at h
    | ok v =>
      rw [hd] at h
      cases hr : decodeLines rest with
      | error e => rw [hr] at h; simp at h
      | ok vs2 =>
        rw [hr] at h
        simp only [Except.ok.injEq] at h
        cases h
        simp only [formatInputLoop, hd]
        rw [ih hr (acc ++ [v])]
        simp

theorem formatInputLoop_error {ls : List String} {e : String}
    (h : decodeLines ls = .error e) :
    ∀ acc, formatInputLoop ls acc = .error e := by
  induction ls with
  | nil => simp [decodeLines] at h
  | cons l rest ih =>
    intro acc
    simp only [decodeLines] at h
    cases hd : decodeLine l with
    | error e2 =>
      rw [hd] at h
      simp only [Except.error.injEq] at h
      cases h
      simp [formatInputLoop, hd]
    | ok v =>
      rw [hd] at h
      cases hr : decodeLines rest with
      | error e2 =>
        rw [hr] at h
        simp only [Except.error.injEq] at h
        cases h
        simp only [formatInputLoop, hd]
        exact ih hr (acc ++ [v])
      | ok vs2 => rw [hr] at h; simp at h

theorem decodeLines_length {ls : List String} {vs : List Json}
    (h : decodeLines ls = .ok vs) : vs.length = ls.length := by
  induction ls generalizing vs with
  | nil => simp only [decodeLines] at h; cases h; rfl
  | cons l rest ih =>
    simp only [decodeLines] at h
    cases hd : decodeLine l with
    | error e => rw [hd] at h; simp at h
    | ok v =>
      rw [hd] at h
      cases hr : decodeLines rest with
      | error e => rw [hr] at h; simp at h
      | ok vs2 =>
        rw [hr] at h
        simp only [Except.ok.injEq] at h
        cases h
        simp [ih hr]

theorem decodeLines_get {ls : List String} {vs : List Json}
    (h : decodeLines ls = .ok vs) :
    ∀ (i : Nat) (h1 : i < ls.length) (h2 : i < vs.length),
      decodeLine (ls.get ⟨i, h1⟩) = .ok (vs.get ⟨i, h2⟩) := by
  induction ls generalizing vs with
  | nil => intro i h1 h2; simp at h1
  | cons l rest ih =>
    simp only [decodeLines] at h
    cases hd : decodeLine l with
    | error e => rw [hd] at h; simp at h
    | ok v =>
      rw [hd] at h
      cases hr : decodeLines rest with
      | error e => rw [hr] at h; simp at h
      | ok vs2 =>
        rw [hr] at h
        simp only [Except.ok.injEq] at h
        cases h
        intro i h1 h2
        match i with
        | 0 => simpa using hd
        | Nat.succ j =>
          simp only [List.get_cons_succ]
          exact ih hr j (by simpa using h1) (by simpa using h2)

theorem decodeLines_error_of_mem {ls : List String} {l : String} {e0 : String}
    (hmem : l ∈ ls) (herr : decodeLine l = .error e0) :
    ∃ e, decodeLines ls = .error e := by
  induction ls with
  | nil => simp at hmem
  | cons hd rest ih =>
    cases hdl : decodeLine hd with
    | error e => exact ⟨e, by simp [decodeLines, hdl]⟩
    | ok v =>
      have hne : l ≠ hd := by
        intro hl
        rw [hl, hdl] at herr
        simp at herr
      have hmem2 : l ∈ rest := by
        cases hmem with
        | head => exact absurd rfl hne
        | tail _ h => exact h
      obtain ⟨e, he⟩ := ih hmem2
      exact ⟨e, by simp [decodeLines, hdl, he]⟩

theorem scanAux_snoc_nl :
    ∀ (cs acc : List Char), (cs = [] → acc ≠ []) → cs.getLast? ≠ some '\n' →
      scanAux acc (cs ++ ['\n']) = scanAux acc cs := by
  intro cs
  induction cs with
  | nil =>
    intro acc h1 _
    have hacc : acc ≠ [] := h1 rfl
    have hacc2 : acc.isEmpty = false := by
      cases acc with
      | nil => exact absurd rfl hacc
      | cons a l => rfl
    simp [scanAux, hacc2]
  | cons c cs ih =>
    intro acc h1 h2
    by_cases hc : c = '\n'
    · subst hc
      have hcs : cs ≠ [] := by
        intro hn
        subst hn
        simp at h2
      have h2b : cs.getLast? ≠ some '\n' := by
        cases cs with
        | nil => exact absurd rfl hcs
        | cons d ds =>
          have h2c := h2
          rw [List.getLast?_cons_cons] at h2c
          exact h2c
      simp only [List.cons_append, scanAux, if_pos rfl, if_true]
      exact congrArg (fun t => dropCR acc.reverse :: t) (ih [] (fun hn => absurd hn hcs) h2b)
    · have h2b : cs.getLast? ≠ some '\n' := by
        cases cs with
        | nil => simp
        | cons d ds =>
          have h2c := h2
          rw [List.getLast?_cons_cons] at h2c
          exact h2c
      simp only [List.cons_append, scanAux, if_neg hc]
      exact ih (c :: acc) (fun _ => by simp) h2b

theorem scanAuxB_flag_false :
    ∀ (cs acc : List Char) (n : Nat), (scanAuxB acc n cs).2 = false →
      scanAuxB acc n cs = (scanAux acc cs, false) := by
  intro cs
  induction cs with
  | nil =>
    intro acc n h
    by_cases hn : maxTok ≤ n
    · simp [scanAuxB, hn] at h
    · by_cases he : acc.isEmpty
      · simp [scanAuxB, scanAux, hn, he]
      · simp [scanAuxB, scanAux, hn, he]
  | cons c cs ih =>
    intro acc n h
    by_cases hn : maxTok ≤ n
    · simp [scanAuxB, hn] at h
    · by_cases hc : c = '\n'
      · subst hc
        have h2 : (scanAuxB [] 0 cs).2 = false := by
          simpa [scanAuxB, hn] using h
        simp [scanAuxB, scanAux, hn, ih [] 0 h2]
      · have h2 : (scanAuxB (c :: acc) (n + 1) cs).2 = false := by
          simpa [scanAuxB, hn, hc] using h
        simp [scanAuxB, scanAux, hn, hc, ih (c :: acc) (n + 1) h2]

theorem scanLinesB_false {s : String} (h : (scanLinesB s).2 = false) :
    scanLinesB s = (scanLines s, false) := by
  have h2 : (scanAuxB [] 0 s.data).2 = false := h
  unfold scanLinesB scanLines
  rw [scanAuxB_flag_false s.data [] 0 h2]

theorem scanAuxB_snoc_nl :
    ∀ (cs acc : List Char) (n : Nat), (cs = [] → acc ≠ []) → cs.getLast? ≠ some '\n' →
      scanAuxB acc n (cs ++ ['\n']) = scanAuxB acc n cs := by
  intro cs
  induction cs with
  | nil =>
    intro acc n h1 _
    have hacc : acc ≠ [] := h1 rfl
    have hacc2 : acc.isEmpty = false := by
      cases acc with
      | nil => exact absurd rfl hacc
      | cons a l => rfl
    by_cases hn : maxTok ≤ n
    · simp [scanAuxB, hn]
    · simp [scanAuxB, hn, hacc2, maxTok]
  | cons c cs ih =>
    intro acc n h1 h2
    by_cases hn : maxTok ≤ n
    · simp [scanAuxB, hn]
    · by_cases hc : c = '\n'
      · subst hc
        have hcs : cs ≠ [] := by
          intro hcn
          subst hcn
          simp at h2
        have h2b : cs.getLast? ≠ some '\n' := by
          cases cs with
          | nil => exact absurd rfl hcs
          | cons d ds =>
            have h2c := h2
            rw [List.getLast?_cons_cons] at h2c
            exact h2c
        have hr := ih [] 0 (fun hcn => absurd hcn hcs) h2b
        simp [scanAuxB, hn, hr]
      · have h2b : cs.getLast? ≠ some '\n' := by
          cases cs with
          | nil => simp
          | cons d ds =>
            have h2c := h2
            rw [List.getLast?_cons_cons] at h2c
            exact h2c
        have hr := ih (c :: acc) (n + 1) (fun _ => by simp) h2b
        simp [scanAuxB, hn, hc, hr]

theorem scanAuxB_long :
    ∀ (cs acc : List Char) (n : Nat), maxTok ≤ n + cs.length → '\n' ∉ cs →
      scanAuxB acc n cs = ([], true) := by
  intro cs
  induction cs with
  | nil =>
    intro acc n hlen _
    simp only [List.length_nil, Nat.add_zero] at hlen
    simp [scanAuxB, hlen]
  | cons c cs ih =>
    intro acc n hlen hmem
    by_cases hn : maxTok ≤ n
    · simp [scanAuxB, hn]
    · have hc : c ≠ '\n' := by
        intro hcn
        exact hmem (by rw [← hcn]; exact List.mem_cons_self c cs)
      have hmem2 : '\n' ∉ cs := fun hh => hmem (List.mem_cons_of_mem c hh)
      have hlen2 : maxTok ≤ (n + 1) + cs.length := by
        simp only [List.length_cons] at hlen
        omega
      simp [scanAuxB, hn, hc, ih (c :: acc) (n + 1) hlen2 hmem2]

theorem scanAux_no_newline :
    ∀ (cs acc : List Char), cs ≠ [] → '\n' ∉ cs →
      scanAux acc cs = [dropCR (acc.reverse ++ cs)] := by
  intro cs
  induction cs with
  | nil => intro acc h1 _; exact absurd rfl h1
  | cons c cs ih =>
    intro acc _ hmem
    have hc : c ≠ '\n' := by
      intro hcn
      exact hmem (by rw [← hcn]; exact List.mem_cons_self c cs)
    have hmem2 : '\n' ∉ cs := fun hh => hmem (List.mem_cons_of_mem c hh)
    cases cs with
    | nil => simp [scanAux, hc]
    | cons d ds =>
      have hr := ih (c :: acc) (by simp) hmem2
      conv_lhs => rw [scanAux]
      rw [if_neg hc, hr]
      simp

theorem dropCR_concat_quote (l : List Char) : dropCR (l ++ ['"']) = l ++ ['"'] := by
  unfold dropCR
  rw [List.getLast?_concat]
  simp

theorem parseStringAux_a_step (tail acc : List Char) :
    parseStringAux ('a' :: tail) acc = parseStringAux tail ('a' :: acc) := rfl

theorem parseStringAux_repl (rest : List Char) :
    ∀ (k : Nat) (acc : List Char),
      parseStringAux (List.replicate k 'a' ++ '"' :: rest) acc =
        .ok (String.mk (acc.reverse ++ List.replicate k 'a'), rest) := by
  intro k
  induction k with
  | zero => intro acc; simp [parseStringAux]
  | succ k ih =>
    intro acc
    rw [List.replicate_succ, List.cons_append, parseStringAux_a_step, ih ('a' :: acc)]
    simp [List.replicate_succ]

theorem add_eight_succ (a : Nat) : a + 8 = Nat.succ (a + 7) := rfl

theorem parseValue_string_ok (f : Nat) (body : List Char) (s : String) (r : List Char)
    (h : parseStringAux body [] = .ok (s, r)) :
    parseValue (Nat.succ f) ('"' :: body) = .ok (Json.str s, r) := by
  have hstep : parseValue (Nat.succ f) ('"' :: body) =
      (match parseStringAux body [] with
        | .error e => Except.error e
        | .ok (s, r) => Except.ok (Json.str s, r)) := rfl
  rw [hstep, h]

theorem parseValue_string_ok8 (n : Nat) (body : List Char) (s : String) (r : List Char)
    (h : parseStringAux body [] = .ok (s, r)) :
    parseValue (n + 8) ('"' :: body) = .ok (Json.str s, r) := by
  rw [add_eight_succ n]
  exact parseValue_string_ok (n + 7) body s r h

theorem parseJsonTop_of_parseValue (s : String) (v : Json)
    (h : parseValue (2 * s.length + 8) s.data = .ok (v, [])) :
    parseJsonTop s = .ok v := by
  unfold parseJsonTop
  rw [h]
  rfl

theorem decodeLine_of_parseJsonTop (l : String) (v w : Json)
    (h : parseJsonTop l = .ok v) (h2 : goValueE v = .ok w) :
    decodeLine l = .ok w := by
  unfold decodeLine
  rw [h]
  exact h2

theorem formatInput_of_scan_too_long (content : String)
    (h : scanLinesB content = ([], true)) :
    formatInput content = .error "bufio.Scanner: token too long" := by
  simp only [formatInput, h]
  rfl

/-! Claim theorems. -/

/-- C1 (code bug evidence): when every step up to the predictions succeeds
and the final uploadFile step fails, LoadAndPredict still answers HTTP 200
with the success message, because the source assigns the upload error to
err (line 205) but never checks it before writing the response (lines 209
to 210).  This contradicts the stated failure policy that any step failure,
including the output upload, is reported as an error to the caller. -/
theorem upload_failure_still_reports_success :
    loadAndPredict
        ⟨some "gs://b/model", some "gs://b/input/", some "gs://b/out/",
          none, none, TFStart.ready, none, none, some "storage: write denied", none⟩ =
      ReqOutcome.responded 200 "predictions completed\n" true true true := rfl

/-- C2 (code bug evidence): an address that carries the store marker but no
separator after the container makes extractLocation index s[1] on a
one-element SplitN result, which panics instead of failing validation; a
request with such an input parameter crashes the handler rather than
producing a ValidationError response. -/
theorem extractLocation_missing_path_panics :
    extractLocation "gs://mybucket" = GoResult.crash
    ∧ loadAndPredict
        ⟨some "gs://b/model", some "gs://mybucket", some "gs://b/out/",
          none, none, TFStart.ready, none, none, none, none⟩ =
      ReqOutcome.crashed := ⟨rfl, rfl⟩

/-- C3: on every exit path of the orchestration on which the inference
child process was launched, the deferred kill runs at exit against a valid
process handle; and the outcome reported to the caller does not depend on
what the discarded kill result is, so the cleanup never masks or replaces
the original error. -/
theorem child_process_killed_on_every_exit (env : ReqEnv) :
    (∀ s b l kc kv, loadAndPredict env = .responded s b l kc kv → l = true →
        kc = true ∧ kv = true)
    ∧ (∀ e, loadAndPredict { env with killResult := e } = loadAndPredict env) := by
  constructor
  · intro s b l kc kv h hl
    unfold loadAndPredict at h
    repeat' split at h
    all_goals first
      | exact ReqOutcome.noConfusion h
      | (injection h with h1 h2 h3 h4 h5
         subst h3
         subst h4
         subst h5
         exact ⟨rfl, hl⟩)
      | (injection h with h1 h2 h3 h4 h5
         subst h3
         exact absurd hl (by simp))
  · intro e
    rfl

/-- Witness for C3: the readiness-timeout path, with the process launched
and every earlier step successful, kills the child process at exit. -/
theorem child_process_killed_on_every_exit_witness :
    loadAndPredict
        ⟨some "gs://b/model", some "gs://b/input/", some "gs://b/out/",
          none, none, TFStart.timeout, none, none, none, none⟩ =
      ReqOutcome.responded 500 "error when starting tensorflow\n" true true true
    ∧ (true = true ∧ true = true) :=
  ⟨rfl,
    (child_process_killed_on_every_exit
        ⟨some "gs://b/model", some "gs://b/input/", some "gs://b/out/",
          none, none, TFStart.timeout, none, none, none, none⟩).1
      500 "error when starting tensorflow\n" true true true rfl rfl⟩

/-- C4: for every response body whose escaped form unmarshals to a
tfAnswer with predictions of length N and an empty (or absent) error
field, formatOutput succeeds and returns exactly the concatenation, in
order, of one line per prediction, each line the compact json.Marshal
serialization of that prediction followed by a newline. -/
theorem formatOutput_success_lines (body : String) (preds : List Json)
    (h : unmarshalTfAnswer (escapeBackslash body) = .ok ⟨preds, ""⟩) :
    formatOutput body = .ok ((preds.map fun p => goMarshal p ++ "\n").foldr (· ++ ·) "") := by
  simp only [formatOutput, h]
  simp [outLoop_foldr]

/-- Witness for C4 at a two-prediction response body: the number 1 decodes
to the double 1.0 and remarshals canonically. -/
theorem formatOutput_success_lines_witness :
    unmarshalTfAnswer (escapeBackslash "\x7b\"predictions\":[1,\"a\"]\x7d") =
      Except.ok ⟨[Json.dbl (f64OfDec 1 0), Json.str "a"], ""⟩
    ∧ formatOutput "\x7b\"predictions\":[1,\"a\"]\x7d" =
      Except.ok (([Json.dbl (f64OfDec 1 0), Json.str "a"].map fun p => goMarshal p ++ "\n").foldr (· ++ ·) "") :=
  ⟨rfl, formatOutput_success_lines "\x7b\"predictions\":[1,\"a\"]\x7d"
    [Json.dbl (f64OfDec 1 0), Json.str "a"] rfl⟩

/-- Canonical float64 re-serialization checks: json.Marshal of the decoded
doubles 1.0, 1.50, 1e2 and 1e-05 writes 1, 1.5, 100 and 0.00001, the whole
formatOutput pipeline produces those bytes, a magnitude below the 1e-6
threshold keeps exponent notation with the shortened negative exponent,
and the out-of-range literal 1e999 makes unmarshalling fail as
strconv.ParseFloat reports a range error to encoding/json. -/
theorem goMarshal_canonical_float_checks :
    goMarshal (Json.dbl (f64OfDec 10 (-1))) = "1"
    ∧ goMarshal (Json.dbl (f64OfDec 15 (-1))) = "1.5"
    ∧ goMarshal (Json.dbl (f64OfDec 1 2)) = "100"
    ∧ goMarshal (Json.dbl (f64OfDec 1 (-5))) = "0.00001"
    ∧ goMarshal (Json.dbl (f64OfDec 1 (-7))) = "1e-7"
    ∧ goMarshal (Json.dbl (f64OfDec 1 21)) = "1e+21"
    ∧ formatOutput "\x7b\"predictions\":[1.0,1.50,1e2,1e-05]\x7d" =
      Except.ok "1\n1.5\n100\n0.00001\n"
    ∧ formatOutput "\x7b\"predictions\":[1e999]\x7d" =
      Except.error "json: cannot unmarshal number 1e999 into float64" :=
  ⟨rfl, rfl, rfl, rfl, rfl, rfl, rfl, rfl⟩

/-- C6: for every response body whose escaped form unmarshals to a
tfAnswer with a non-empty error string, formatOutput fails with exactly
that message and produces no output, whatever the predictions field
holds. -/
theorem formatOutput_error_field_fails (body : String) (a : TfAnswer)
    (h : unmarshalTfAnswer (escapeBackslash body) = .ok a) (hne : a.error ≠ "") :
    formatOutput body = .error a.error := by
  simp only [formatOutput, h]
  simp [hne]

/-- Witness for C6 at a response that carries both predictions and a
non-empty error. -/
theorem formatOutput_error_field_fails_witness :
    unmarshalTfAnswer (escapeBackslash "\x7b\"predictions\":[1],\"error\":\"boom\"\x7d") =
      Except.ok ⟨[Json.dbl (f64OfDec 1 0)], "boom"⟩
    ∧ ("boom" : String) ≠ ""
    ∧ formatOutput "\x7b\"predictions\":[1],\"error\":\"boom\"\x7d" = Except.error "boom" :=
  ⟨rfl, by decide,
    formatOutput_error_field_fails "\x7b\"predictions\":[1],\"error\":\"boom\"\x7d"
      ⟨[Json.dbl (f64OfDec 1 0)], "boom"⟩ rfl (by decide)⟩

/-- C7: formatOutput first doubles every backslash character of the raw
body and only then parses; it is exactly the parse-and-render pipeline
applied to the escaped body, and the escape rewrites each character
independently, mapping one backslash to two. -/
theorem formatOutput_escapes_before_parse :
    ∀ body : String,
      formatOutput body = decodeAnswerBody (escapeBackslash body)
      ∧ (escapeBackslash body).data =
          body.data.flatMap (fun c => if c = '\\' then ['\\', '\\'] else [c]) := by
  intro body
  exact ⟨rfl, escapeBackslash_data body.data⟩

/-- C8: downloadFiles called with a remote path that does not end in the
separator fails with its shape ValidationError and an empty effect trace
(no directory creation, no listing, no read, no write); downloadFile called
with a key that does end in the separator fails with its shape
ValidationError and an empty effect trace (no stream opened, no local file
created). -/
theorem download_shape_validation_before_io :
    (∀ (fuel : Nat) (b : Bucket) (path localDest : String),
        goHasSuffix path "/" = false →
        downloadFiles fuel b path localDest =
          (Except.error "downloadFiles: path must be GCS directory", []))
    ∧ (∀ (b : Bucket) (path dest : String),
        goHasSuffix path "/" = true →
        downloadFile b path dest =
          (Except.error "downloadFiles: path must be GCS file", [])) := by
  constructor
  · intro fuel b path localDest h
    unfold downloadFiles
    simp [h]
  · intro b path dest h
    unfold downloadFile
    simp [h]

/-- Witness for C8 at a file-shaped tree source and a directory-shaped
single-file source. -/
theorem download_shape_validation_before_io_witness :
    (goHasSuffix "models" "/" = false
      ∧ downloadFiles 3 ⟨[]⟩ "models" "/tmp/model/000000/" =
          (Except.error "downloadFiles: path must be GCS directory", []))
    ∧ (goHasSuffix "input/" "/" = true
      ∧ downloadFile ⟨[]⟩ "input/" "/tmp/input/x" =
          (Except.error "downloadFiles: path must be GCS file", [])) :=
  ⟨⟨rfl, download_shape_validation_before_io.1 3 ⟨[]⟩ "models" "/tmp/model/000000/" rfl⟩,
    ⟨rfl, download_shape_validation_before_io.2 ⟨[]⟩ "input/" "/tmp/input/x" rfl⟩⟩

/-- C9: an empty input file yields the envelope with an empty instances
array, serialized as an array, and the per-file prediction step still
posts exactly that envelope to the inference endpoint instead of skipping
the file. -/
theorem formatInput_empty_file_envelope :
    ∀ post : String → Except String String,
      formatInput "" = Except.ok "\x7b\"instances\":[]\x7d"
      ∧ (processFile post "").posted = some "\x7b\"instances\":[]\x7d" := by
  intro post
  have hfi : formatInput "" = Except.ok "\x7b\"instances\":[]\x7d" := rfl
  refine ⟨hfi, ?_⟩
  cases h : post "\x7b\"instances\":[]\x7d" with
  | error e => simp [processFile, hfi, h]
  | ok resp => cases h2 : formatOutput resp <;> simp [processFile, hfi, h, h2]

/-- C5: for every input file all of whose scanned lines decode as JSON
values, formatInput succeeds with the instances envelope holding exactly
one value per line in original order; and if any scanned line fails to
decode, the whole file is aborted with an error and no envelope is
produced. -/
theorem formatInput_wellformed_lines (content : String)
    (hb : (scanLinesB content).2 = false) :
    (∀ vs, decodeLines (scanLines content) = .ok vs →
        formatInput content = .ok (marshalInstances vs)
        ∧ vs.length = (scanLines content).length
        ∧ ∀ (i : Nat) (h1 : i < (scanLines content).length) (h2 : i < vs.length),
            decodeLine ((scanLines content).get ⟨i, h1⟩) = .ok (vs.get ⟨i, h2⟩))
    ∧ (∀ l e0, l ∈ scanLines content → decodeLine l = .error e0 →
        ∃ e, formatInput content = .error e) := by
  have hbr : scanLinesB content = (scanLines content, false) := scanLinesB_false hb
  constructor
  · intro vs h
    refine ⟨?_, decodeLines_length h, decodeLines_get h⟩
    simp only [formatInput, hbr]
    rw [formatInputLoop_ok h []]
    simp
  · intro l e0 hmem herr
    obtain ⟨e, he⟩ := decodeLines_error_of_mem hmem herr
    exact ⟨e, by simp only [formatInput, hbr]; rw [formatInputLoop_error he []]⟩

/-- C5 counterexample: a single line that is one well-formed JSON string of
65602 characters.  The file consists of one line that parses as one JSON
value, yet formatInput fails, because the line reaches the 64 KiB
MaxScanTokenSize bound of the default bufio.Scanner, whose ErrTooLong the
scanner.Err() check at source lines 422 to 424 turns into a formatInput
error. -/
theorem formatInput_long_line_counterexample :
    scanLines (String.mk ('"' :: (List.replicate 65600 'a' ++ ['"']))) =
      [String.mk ('"' :: (List.replicate 65600 'a' ++ ['"']))]
    ∧ decodeLine (String.mk ('"' :: (List.replicate 65600 'a' ++ ['"']))) =
      Except.ok (Json.str (String.mk (List.replicate 65600 'a')))
    ∧ formatInput (String.mk ('"' :: (List.replicate 65600 'a' ++ ['"']))) =
      Except.error "bufio.Scanner: token too long" := by
  have hnl : '\n' ∉ ('"' :: (List.replicate 65600 'a' ++ ['"'])) := by
    intro h
    rcases List.mem_cons.mp h with h1 | h2
    · exact absurd h1 (by decide)
    · rcases List.mem_append.mp h2 with h3 | h4
      · exact absurd (List.eq_of_mem_replicate h3) (by decide)
      · exact absurd (List.mem_singleton.mp h4) (by decide)
  refine ⟨?_, ?_, ?_⟩
  · unfold scanLines
    rw [show (String.mk ('"' :: (List.replicate 65600 'a' ++ ['"']))).data =
        '"' :: (List.replicate 65600 'a' ++ ['"']) from rfl]
    rw [scanAux_no_newline _ [] (List.cons_ne_nil _ _) hnl]
    simp only [List.reverse_nil, List.nil_append]
    rw [show ('"' :: (List.replicate 65600 'a' ++ ['"'])) =
        ('"' :: List.replicate 65600 'a') ++ ['"'] from (List.cons_append _ _ _).symm]
    rw [dropCR_concat_quote]
    rfl
  · have hps0 := parseStringAux_repl ([] : List Char) 65600 ([] : List Char)
    have hps : parseStringAux (List.replicate 65600 'a' ++ '"' :: []) [] =
        .ok (String.mk (List.replicate 65600 'a'), []) := by
      rw [hps0]
      rfl
    have hpv := parseValue_string_ok8
      (2 * (String.mk ('"' :: (List.replicate 65600 'a' ++ ['"']))).length)
      (List.replicate 65600 'a' ++ ['"'])
      (String.mk (List.replicate 65600 'a')) [] hps
    exact decodeLine_of_parseJsonTop _ _ _
      (parseJsonTop_of_parseValue (String.mk ('"' :: (List.replicate 65600 'a' ++ ['"'])))
        (Json.str (String.mk (List.replicate 65600 'a'))) hpv)
      rfl
  · have hlen : maxTok ≤ 0 + ('"' :: (List.replicate 65600 'a' ++ ['"'])).length := by
      rw [List.length_cons, List.length_append, List.length_replicate]
      norm_num [maxTok]
    have hscan : scanAuxB [] 0 ('"' :: (List.replicate 65600 'a' ++ ['"'])) = ([], true) :=
      scanAuxB_long _ [] 0 hlen hnl
    have hsl : scanLinesB (String.mk ('"' :: (List.replicate 65600 'a' ++ ['"']))) =
        ([], true) := by
      unfold scanLinesB
      rw [show (String.mk ('"' :: (List.replicate 65600 'a' ++ ['"']))).data =
          '"' :: (List.replicate 65600 'a' ++ ['"']) from rfl]
      rw [hscan]
      rfl
    exact formatInput_of_scan_too_long _ hsl

/-- Witness for C5 (amended): a two-line file of JSON numbers, decoded to
doubles and marshalled canonically, and a short file whose single line is
not JSON; both stay far below the scanner bound. -/
theorem formatInput_wellformed_lines_witness :
    (scanLinesB "1\n2").2 = false
    ∧ decodeLines (scanLines "1\n2") =
        Except.ok [Json.dbl (f64OfDec 1 0), Json.dbl (f64OfDec 2 0)]
    ∧ formatInput "1\n2" =
        Except.ok (marshalInstances [Json.dbl (f64OfDec 1 0), Json.dbl (f64OfDec 2 0)])
    ∧ ((scanLinesB "x").2 = false ∧ "x" ∈ scanLines "x"
        ∧ decodeLine "x" = Except.error "invalid character looking for beginning of value")
    ∧ (∃ e, formatInput "x" = Except.error e) :=
  ⟨rfl, rfl,
    ((formatInput_wellformed_lines "1\n2" rfl).1
      [Json.dbl (f64OfDec 1 0), Json.dbl (f64OfDec 2 0)] rfl).1,
    ⟨rfl, by decide, rfl⟩,
    (formatInput_wellformed_lines "x" rfl).2 "x"
      "invalid character looking for beginning of value" (by decide) rfl⟩

/-- C10: whenever the scanner yields an empty line (for instance a blank
line between two JSON lines, or consecutive trailing newlines), formatInput
fails for the whole file; while appending one single newline after a final
non-newline character changes neither the scanned lines nor the formatInput
result. -/
theorem formatInput_empty_line_fails :
    (∀ content : String, "" ∈ scanLines content → ∃ e, formatInput content = .error e)
    ∧ (∀ cs : List Char, cs ≠ [] → cs.getLast? ≠ some '\n' →
        scanAux [] (cs ++ ['\n']) = scanAux [] cs
        ∧ formatInput (String.mk (cs ++ ['\n'])) = formatInput (String.mk cs)) := by
  constructor
  · intro content hmem
    cases hflag : (scanLinesB content).2 with
    | true =>
      cases hlp : formatInputLoop (scanLinesB content).1 [] with
      | error e => exact ⟨e, by simp only [formatInput]; rw [hlp]⟩
      | ok vs =>
        exact ⟨"bufio.Scanner: token too long",
          by simp only [formatInput]; rw [hlp, hflag]; simp⟩
    | false =>
      have hbr : scanLinesB content = (scanLines content, false) := scanLinesB_false hflag
      obtain ⟨e, he⟩ := decodeLines_error_of_mem hmem
        (show decodeLine "" = .error "unexpected end of JSON input" from rfl)
      exact ⟨e, by simp only [formatInput, hbr]; rw [formatInputLoop_error he []]⟩
  · intro cs h1 h2
    have hs : scanAux [] (cs ++ ['\n']) = scanAux [] cs :=
      scanAux_snoc_nl cs [] (fun hn => absurd hn h1) h2
    refine ⟨hs, ?_⟩
    have hsB := scanAuxB_snoc_nl cs [] 0 (fun hn => absurd hn h1) h2
    have hsc : scanLinesB (String.mk (cs ++ ['\n'])) = scanLinesB (String.mk cs) := by
      unfold scanLinesB
      show ((scanAuxB [] 0 (cs ++ ['\n'])).1.map _, (scanAuxB [] 0 (cs ++ ['\n'])).2) = _
      rw [hsB]
    unfold formatInput
    rw [hsc]

/-- Witness for C10: a blank line between two JSON lines fails, and a
single trailing newline after a JSON value is accepted without change. -/
theorem formatInput_empty_line_fails_witness :
    ("" ∈ scanLines "1\n\n2" ∧ (∃ e, formatInput "1\n\n2" = Except.error e))
    ∧ (scanAux [] (['2'] ++ ['\n']) = scanAux [] ['2']
        ∧ formatInput (String.mk (['2'] ++ ['\n'])) = formatInput (String.mk ['2'])) :=
  ⟨⟨by decide, formatInput_empty_line_fails.1 "1\n\n2" (by decide)⟩,
    formatInput_empty_line_fails.2 ['2'] (by decide) (by decide)⟩

end EmbeddedTF
